import Mathlib

/-!
Verification of the NFP host-side debug toolkit's bus-access stack.

This file gives a shallow embedding, over `Nat`, of the pure computational
core of the Rust sources (`expansion_bar.rs`, `explicit_bar.rs`,
`xpb_bus.rs`, `mem_access.rs`, `virtual_terminal.rs`, `cpp_bus.rs`,
`performance_analyzer.rs`, `gdb_server_stub.rs`).  Machine integers are
modelled as `Nat` with explicit `% 2^w` wherever the Rust code can wrap
(release-profile wrapping semantics for arithmetic overflow); a Rust
`panic!` is modelled as `none` / a dedicated error constructor.
-/

set_option maxHeartbeats 1000000

namespace NfpTools

/-- Map types of the expansion-BAR translator (`MapType` in
`expansion_bar.rs`).  The Rust `as u32` cast uses the declaration-order
discriminants 0..4. -/
inductive MapType where
  | Fixed
  | Bulk
  | Target
  | General
  | Explicit
  deriving DecidableEq, Repr

/-- Discriminant of `MapType` (the value of the Rust `as u32` cast). -/
def MapType.code : MapType → Nat
  | .Fixed => 0
  | .Bulk => 1
  | .Target => 2
  | .General => 3
  | .Explicit => 4

/-- The sixteen islands of `CppIsland` in `cpp_bus.rs`. -/
inductive CppIsland where
  | Local
  | ChipExec
  | Pcie0
  | Pcie1
  | Nbi0
  | Nbi1
  | Nbi2
  | Nbi3
  | Emu0
  | Rfpc0
  | Rfpc1
  | Rfpc2
  | Rfpc3
  | Rfpc4
  | Rfpc5
  | Rfpc6
  deriving DecidableEq, Repr

/-- `CppIsland::id` from `cpp_bus.rs`. -/
def CppIsland.id : CppIsland → Nat
  | .Local => 0
  | .ChipExec => 1
  | .Pcie0 => 2
  | .Pcie1 => 3
  | .Nbi0 => 4
  | .Nbi1 => 5
  | .Nbi2 => 6
  | .Nbi3 => 7
  | .Emu0 => 8
  | .Rfpc0 => 9
  | .Rfpc1 => 10
  | .Rfpc2 => 11
  | .Rfpc3 => 12
  | .Rfpc4 => 13
  | .Rfpc5 => 14
  | .Rfpc6 => 15

/-- `CppIsland::from_id` from `cpp_bus.rs`; `none` models the
`panic!("Invalid island ID")` arm. -/
def CppIsland.fromId : Nat → Option CppIsland
  | 0 => some .Local
  | 1 => some .ChipExec
  | 2 => some .Pcie0
  | 3 => some .Pcie1
  | 4 => some .Nbi0
  | 5 => some .Nbi1
  | 6 => some .Nbi2
  | 7 => some .Nbi3
  | 8 => some .Emu0
  | 9 => some .Rfpc0
  | 10 => some .Rfpc1
  | 11 => some .Rfpc2
  | 12 => some .Rfpc3
  | 13 => some .Rfpc4
  | 14 => some .Rfpc5
  | 15 => some .Rfpc6
  | _ => none

/-- `CppTarget` from `cpp_bus.rs`. -/
inductive CppTarget where
  | Nbi
  | Mem
  | Pcie
  | Arm
  | Ct
  | Cls
  deriving DecidableEq, Repr

/-- `CppTarget::id` from `cpp_bus.rs`. -/
def CppTarget.id : CppTarget → Nat
  | .Nbi => 1
  | .Mem => 7
  | .Pcie => 9
  | .Arm => 10
  | .Ct => 14
  | .Cls => 15

/-- `CppLength` from `cpp_bus.rs`. -/
inductive CppLength where
  | Len32
  | Len64
  | NoLen
  deriving DecidableEq, Repr

/-- `CppLength::id` from `cpp_bus.rs`. -/
def CppLength.id : CppLength → Nat
  | .Len32 => 0
  | .Len64 => 1
  | .NoLen => 3

/-! ### XPB address composition (`xpb_bus.rs`) -/

/-- The 32-bit CPP address composed by `xpb_read` (`xpb_bus.rs`, lines
20-26).  Note that the island-id bits are ORed in *before* the `xpbm`
test, so they are present in the global (`xpbm = true`) address too. -/
def xpbReadAddr (island : CppIsland) (address : Nat) (xpbm : Bool) : Nat :=
  let xpbAddr := address &&& 0x00FFFFFF
  let xpbAddr := xpbAddr ||| ((island.id &&& 0x7F) <<< 24)
  if xpbm then xpbAddr ||| (1 <<< 31) else xpbAddr

/-- The destination island used by `xpb_read`. -/
def xpbReadIsland (island : CppIsland) (xpbm : Bool) : CppIsland :=
  if xpbm then CppIsland.ChipExec else island

/-- The 32-bit CPP address composed by `xpb_write` (`xpb_bus.rs`, lines
56-63): here the island-id bits are ORed in only on the non-global
branch. -/
def xpbWriteAddr (island : CppIsland) (address : Nat) (xpbm : Bool) : Nat :=
  let xpbAddr := address &&& 0x00FFFFFF
  if xpbm then
    xpbAddr ||| (1 <<< 31)
  else
    xpbAddr ||| ((island.id &&& 0x7F) <<< 24)

/-- The destination island used by `xpb_write`. -/
def xpbWriteIsland (island : CppIsland) (xpbm : Bool) : CppIsland :=
  if xpbm then CppIsland.ChipExec else island

/-! ### Bit-length helpers

`u64::leading_zeros` / `u32::leading_zeros` are modelled through a
fuel-bounded bit-length function (`bitLenAux 64 n` is the number of
significant bits of `n < 2^64`, so `leading_zeros = 64 - bitLenAux 64 n`).
-/

/-- Number of significant binary digits of `n`, computed with explicit
fuel so that it is structurally recursive. -/
def bitLenAux : Nat → Nat → Nat
  | 0, _ => 0
  | fuel + 1, n => if n = 0 then 0 else bitLenAux fuel (n / 2) + 1

/-- Bit length of a `u64` value (64 minus its `leading_zeros`). -/
def bitLen64 (n : Nat) : Nat := bitLenAux 64 n

/-- `u64::leading_zeros`. -/
def leadingZeros64 (n : Nat) : Nat := 64 - bitLen64 n

theorem bitLenAux_le_iff {f n k : Nat} (h : n < 2 ^ f) :
    bitLenAux f n ≤ k ↔ n < 2 ^ k := by
  induction f generalizing n k with
  | zero =>
    simp only [pow_zero, Nat.lt_one_iff] at h
    subst h
    simp [bitLenAux, Nat.pos_pow_of_pos, Nat.pos_of_ne_zero, Nat.two_pow_pos]
  | succ f ih =>
    by_cases hn : n = 0
    · subst hn
      simp [bitLenAux, Nat.two_pow_pos]
    · have hdiv : n / 2 < 2 ^ f := by
        have h2 : (2 : Nat) ^ (f + 1) = 2 ^ f * 2 := by ring
        rw [h2] at h
        omega
      cases k with
      | zero =>
        simp only [bitLenAux, if_neg hn, pow_zero]
        omega
      | succ k =>
        simp only [bitLenAux, if_neg hn]
        rw [Nat.add_le_add_iff_right, ih hdiv]
        have h2 : (2 : Nat) ^ (k + 1) = 2 ^ k * 2 := by ring
        omega

theorem bitLenAux_two_pow {f t : Nat} (h : t < f) :
    bitLenAux f (2 ^ t) = t + 1 := by
  have hlt : (2 : Nat) ^ t < 2 ^ f := Nat.pow_lt_pow_right (by omega) h
  have h1 : bitLenAux f (2 ^ t) ≤ t + 1 := by
    rw [bitLenAux_le_iff hlt]
    exact Nat.pow_lt_pow_right (by omega) (by omega)
  have h2 : ¬ bitLenAux f (2 ^ t) ≤ t := by
    rw [bitLenAux_le_iff hlt]
    omega
  omega

/-! ### Disjoint bitwise-or as addition -/

theorem or_eq_add_of_and_eq_zero (a b : Nat) (h : a &&& b = 0) :
    a ||| b = a + b := by
  induction a using Nat.strong_induction_on generalizing b with
  | _ a ih =>
    by_cases ha : a = 0
    · subst ha; simp
    · have hdiv : a / 2 &&& b / 2 = 0 := by
        rw [← Nat.and_div_two, h]
      have ihd : a / 2 ||| b / 2 = a / 2 + b / 2 :=
        ih (a / 2) (Nat.div_lt_self (Nat.pos_of_ne_zero ha) (by omega)) _ hdiv
      have hor2 : (a ||| b) / 2 = a / 2 + b / 2 := by
        rw [Nat.or_div_two, ihd]
      have hmod : ¬(a % 2 = 1 ∧ b % 2 = 1) := by
        intro hc
        have := Nat.and_mod_two_eq_one.mpr hc
        rw [h] at this
        simp at this
      have hormod : (a ||| b) % 2 = 1 ↔ a % 2 = 1 ∨ b % 2 = 1 :=
        Nat.or_mod_two_eq_one
      omega

theorem and_eq_zero_of_aligned {x y s : Nat} (hx : x % 2 ^ s = 0)
    (hy : y < 2 ^ s) : x &&& y = 0 := by
  apply Nat.eq_of_testBit_eq
  intro i
  simp only [Nat.testBit_and, Nat.zero_testBit]
  by_cases hi : i < s
  · have : x.testBit i = false := by
      have := Nat.testBit_mod_two_pow x s i
      rw [hx] at this
      simp only [Nat.zero_testBit] at this
      have hh := this.symm
      rw [Bool.eq_false_iff] at hh ⊢
      intro hb
      exact hh (by simp [hi, hb])
    simp [this]
  · have : y.testBit i = false :=
      Nat.testBit_lt_two_pow
        (lt_of_lt_of_le hy (Nat.pow_le_pow_right (by omega) (by omega)))
    simp [this]

theorem or_eq_add_of_aligned {x y s : Nat} (hx : x % 2 ^ s = 0)
    (hy : y < 2 ^ s) : x ||| y = x + y :=
  or_eq_add_of_and_eq_zero x y (and_eq_zero_of_aligned hx hy)

theorem shiftLeft_mod_aligned (v k s : Nat) (h : s ≤ k) :
    (v <<< k) % 2 ^ s = 0 := by
  rw [Nat.shiftLeft_eq]
  have : (2 : Nat) ^ k = 2 ^ (k - s) * 2 ^ s := by
    rw [← pow_add]
    congr 1
    omega
  rw [this, ← Nat.mul_assoc]
  exact Nat.mul_mod_left _ _

/-! ### The lowest-set-bit identity

`base & base.wrapping_neg()` in the Rust truncation checks isolates the
lowest set bit: for `0 < n < 2^k`, `n &&& (2^k - n) = 2^t` where `t` is
the position of the lowest set bit of `n`. -/

theorem lowbit_spec :
    ∀ k n, 0 < n → n < 2 ^ k →
      ∃ t, n.testBit t = true ∧ (∀ i, i < t → n.testBit i = false) ∧
        n &&& (2 ^ k - n) = 2 ^ t := by
  intro k
  induction k with
  | zero =>
    intro n h1 h2
    simp only [pow_zero] at h2
    omega
  | succ k ih =>
    intro n h1 h2
    have hpow : (2 : Nat) ^ (k + 1) = 2 * 2 ^ k := by ring
    by_cases hodd : n % 2 = 1
    · refine ⟨0, Nat.mod_two_eq_one_iff_testBit_zero.mp hodd, by omega, ?_⟩
      apply Nat.eq_of_testBit_eq
      intro i
      cases i with
      | zero =>
        simp only [Nat.testBit_and]
        have h3 : (2 ^ (k + 1) - n) % 2 = 1 := by omega
        rw [Nat.mod_two_eq_one_iff_testBit_zero.mp hodd,
          Nat.mod_two_eq_one_iff_testBit_zero.mp h3]
        rfl
      | succ i =>
        simp only [Nat.testBit_and]
        have hsub : n - 1 < 2 ^ (k + 1) := by omega
        have hidx : 2 ^ (k + 1) - n = 2 ^ (k + 1) - ((n - 1) + 1) := by omega
        rw [hidx, Nat.testBit_two_pow_sub_succ hsub]
        have hdiv : (n - 1) / 2 = n / 2 := by omega
        rw [Nat.testBit_add_one (n - 1), hdiv, ← Nat.testBit_add_one n]
        have h1b : Nat.testBit 1 (i + 1) = false :=
          Nat.testBit_lt_two_pow (Nat.one_lt_two_pow_iff.mpr (by omega))
        cases hb : n.testBit (i + 1) <;> simp [hb, h1b]
    · have hm2 : n % 2 = 0 := by omega
      obtain ⟨m, hm⟩ : ∃ m, n = 2 * m := ⟨n / 2, by omega⟩
      have hm1 : 0 < m := by omega
      have hmk : m < 2 ^ k := by omega
      obtain ⟨t, ht1, ht2, ht3⟩ := ih m hm1 hmk
      refine ⟨t + 1, ?_, ?_, ?_⟩
      · rw [Nat.testBit_add_one]
        have : n / 2 = m := by omega
        rw [this]; exact ht1
      · intro i hi
        cases i with
        | zero =>
          exact Nat.mod_two_eq_zero_iff_testBit_zero.mp hm2
        | succ i =>
          rw [Nat.testBit_add_one]
          have : n / 2 = m := by omega
          rw [this]
          exact ht2 i (by omega)
      · have hx2 : (n &&& (2 ^ (k + 1) - n)) % 2 = 0 := by
          rcases Nat.mod_two_eq_zero_or_one (n &&& (2 ^ (k + 1) - n)) with h | h
          · exact h
          · exact absurd (Nat.and_mod_two_eq_one.mp h).1 (by omega)
        have hxd : (n &&& (2 ^ (k + 1) - n)) / 2 = m &&& (2 ^ k - m) := by
          rw [Nat.and_div_two]
          have e1 : n / 2 = m := by omega
          have e2 : (2 ^ (k + 1) - n) / 2 = 2 ^ k - m := by omega
          rw [e1, e2]
        have hps : (2 : Nat) ^ (t + 1) = 2 * 2 ^ t := by ring
        omega

/-! ### The expansion-BAR translator (`ExpansionBar::expansion_bar_cfg`) -/

/-- The per-map-type base-address width (`expansion_bar.rs`, lines
232-238).  The `_ => 32` arm covers `Explicit`, which is unreachable
after the early return. -/
def mapWidth : MapType → Nat
  | .Fixed => 32
  | .Bulk => 38
  | .Target => 40
  | .General => 44
  | .Explicit => 32

/-- The pure word computation of `ExpansionBar::expansion_bar_cfg`
(`expansion_bar.rs`, lines 203-295): given the map type and the call
arguments it yields the two 32-bit CSR words, or `none` for either
`panic!` (base address wider than 48 bits, or address truncation).
`u32` subtraction `bit_length - 1` wraps (release profile), modelled by
`(bitLength + (2^32 - 1)) % 2^32`; the `as u32` cast of `cfg1` is
`% 2^32`. -/
def expansionBarCfgWords (map : MapType) (tgtIslandId target action token : Nat)
    (baseAddr : Nat) (cppLen : Nat) : Option (Nat × Nat) :=
  let cfg0 := (1 <<< 31) ||| ((map.code &&& 0x7) <<< 20)
  if map = .Explicit then
    some (cfg0, 0)
  else if 64 - leadingZeros64 baseAddr > 48 then
    none
  else
    let baseAddrWidth := mapWidth map
    let lowestBit := baseAddr &&& ((2 ^ 64 - baseAddr) % 2 ^ 64)
    let bitLength := bitLen64 lowestBit
    if (bitLength + (2 ^ 32 - 1)) % 2 ^ 32 < 48 - baseAddrWidth then
      none
    else
      let addrIdx := 48
      let cfg0 := cfg0 ||| ((cppLen &&& 0x3) <<< 16)
      let cfg0 := cfg0 ||| ((tgtIslandId &&& 0x7F) <<< 24)
      let st1 : Nat × Nat :=
        match map with
        | .General => (cfg0 ||| (((baseAddr >>> (addrIdx - 4)) &&& 0xF) <<< 12), addrIdx - 4)
        | _ => (cfg0 ||| ((target &&& 0xF) <<< 12), addrIdx)
      let st2 : Nat × Nat :=
        match map with
        | .Fixed | .Bulk => (st1.1 ||| ((token &&& 0x3) <<< 8), st1.2)
        | _ => (st1.1 ||| (((baseAddr >>> (st1.2 - 2)) &&& 0x3) <<< 8), st1.2 - 2)
      let st3 : Nat × Nat :=
        match map with
        | .Fixed => (st2.1 ||| (action &&& 0x3F), st2.2)
        | _ => (st2.1 ||| ((baseAddr >>> (st2.2 - 6)) &&& 0x3F), st2.2 - 6)
      let cfg1 := (baseAddr >>> (st3.2 - 32)) % 2 ^ 32
      some (st3.1, cfg1)

/-- The first check of `expansion_bar_cfg` fires exactly on base
addresses of 48 bits or more. -/
theorem sizeCheck_iff {base : Nat} (h : base < 2 ^ 64) :
    (64 - leadingZeros64 base > 48) ↔ 2 ^ 48 ≤ base := by
  unfold leadingZeros64 bitLen64
  have hle : bitLenAux 64 base ≤ 64 := (bitLenAux_le_iff h).mpr h
  have h48 : bitLenAux 64 base ≤ 48 ↔ base < 2 ^ 48 := bitLenAux_le_iff h
  omega

/-- The truncation check of `expansion_bar_cfg` fires exactly when some
bit below position `c` is set in the base address (for the widths in
use, `c = 48 - width ≤ 16`).  In particular `base = 0` passes: the
wrapped `u32` value `bit_length - 1` is `2^32 - 1`. -/
theorem truncCheck_iff {base c : Nat} (hc : c ≤ 16) (h : base < 2 ^ 48) :
    ((bitLen64 (base &&& ((2 ^ 64 - base) % 2 ^ 64)) + (2 ^ 32 - 1)) % 2 ^ 32 < c)
      ↔ ∃ i, i < c ∧ base.testBit i := by
  have h64 : base < 2 ^ 64 := lt_of_lt_of_le h (by norm_num)
  by_cases hb : base = 0
  · subst hb
    simp only [Nat.zero_and, Nat.zero_testBit]
    rw [show bitLen64 0 = 0 from rfl]
    constructor
    · intro hlt
      rw [show (2 : Nat) ^ 32 = 4294967296 by norm_num] at hlt
      omega
    · rintro ⟨i, _, hi⟩
      simp at hi
  · have hpos : 0 < base := Nat.pos_of_ne_zero hb
    have hmod : (2 ^ 64 - base) % 2 ^ 64 = 2 ^ 64 - base :=
      Nat.mod_eq_of_lt (by omega)
    obtain ⟨t, ht1, ht2, ht3⟩ := lowbit_spec 64 base hpos h64
    have htle : 2 ^ t ≤ base := Nat.testBit_implies_ge ht1
    have ht64 : t < 64 := by
      by_contra hcon
      have : (2 : Nat) ^ 64 ≤ 2 ^ t := Nat.pow_le_pow_right (by omega) (by omega)
      omega
    rw [hmod, ht3]
    rw [show bitLen64 (2 ^ t) = t + 1 from bitLenAux_two_pow ht64]
    have hval : (t + 1 + (2 ^ 32 - 1)) % 2 ^ 32 = t := by
      rw [show (2 : Nat) ^ 32 = 4294967296 by norm_num]
      omega
    rw [hval]
    constructor
    · intro htc
      exact ⟨t, htc, ht1⟩
    · rintro ⟨i, hic, hib⟩
      have : t ≤ i := by
        by_contra hcon
        rw [ht2 i (by omega)] at hib
        exact Bool.false_ne_true hib
      omega

/-! ### Field algebra for the config words -/

theorem mod_two_pow_eq_zero_iff {x s : Nat} :
    x % 2 ^ s = 0 ↔ ∀ i, i < s → x.testBit i = false := by
  constructor
  · intro h i hi
    have hbit := Nat.testBit_mod_two_pow x s i
    rw [h, Nat.zero_testBit, eq_comm] at hbit
    simpa [hi] using hbit
  · intro h
    by_contra hne
    obtain ⟨i, hi⟩ := Nat.ne_zero_implies_bit_true hne
    rw [Nat.testBit_mod_two_pow] at hi
    have h1 : i < s := by
      by_contra hc
      simp [hc] at hi
    have h2 : x.testBit i = true := by
      simpa [h1] using hi
    rw [h i h1] at h2
    exact Bool.false_ne_true h2

theorem or_mod_two_pow_eq_zero {x y s : Nat} (hx : x % 2 ^ s = 0)
    (hy : y % 2 ^ s = 0) : (x ||| y) % 2 ^ s = 0 := by
  rw [mod_two_pow_eq_zero_iff] at hx hy ⊢
  intro i hi
  simp [Nat.testBit_or, hx i hi, hy i hi]

theorem shiftLeft_lt {v w : Nat} (k : Nat) (h : v < 2 ^ w) :
    v <<< k < 2 ^ (w + k) := by
  rw [Nat.shiftLeft_eq, pow_add]
  exact Nat.mul_lt_mul_of_lt_of_le h (le_refl _) (Nat.two_pow_pos k)

theorem and_mask3 (x : Nat) : x &&& 0x3 = x % 4 :=
  Nat.and_pow_two_sub_one_eq_mod x 2

theorem and_mask15 (x : Nat) : x &&& 0xF = x % 16 :=
  Nat.and_pow_two_sub_one_eq_mod x 4

theorem and_mask63 (x : Nat) : x &&& 0x3F = x % 64 :=
  Nat.and_pow_two_sub_one_eq_mod x 6

theorem and_mask127 (x : Nat) : x &&& 0x7F = x % 128 :=
  Nat.and_pow_two_sub_one_eq_mod x 7

/-- The `cfg0` or-accumulation of `expansion_bar_cfg` assembles disjoint
bit fields, so it equals the corresponding sum. -/
theorem cfg0_chain_eq_add (mc l t g k a : Nat)
    (hmc : mc < 8) (hl : l < 4) (ht : t < 128) (hg : g < 16) (hk : k < 4)
    (ha : a < 64) :
    ((((((1 <<< 31) ||| (mc <<< 20)) ||| (l <<< 16)) ||| (t <<< 24)) |||
        (g <<< 12)) ||| (k <<< 8)) ||| a =
      2 ^ 31 + mc * 2 ^ 20 + l * 2 ^ 16 + t * 2 ^ 24 + g * 2 ^ 12 +
        k * 2 ^ 8 + a := by
  have mA12 : (1 <<< 31) % 2 ^ 12 = 0 := shiftLeft_mod_aligned 1 31 12 (by omega)
  have mA20 : (1 <<< 31) % 2 ^ 20 = 0 := shiftLeft_mod_aligned 1 31 20 (by omega)
  have mA31 : (1 <<< 31) % 2 ^ 31 = 0 := shiftLeft_mod_aligned 1 31 31 (by omega)
  have mB12 : (mc <<< 20) % 2 ^ 12 = 0 := shiftLeft_mod_aligned mc 20 12 (by omega)
  have mC12 : (l <<< 16) % 2 ^ 12 = 0 := shiftLeft_mod_aligned l 16 12 (by omega)
  have mD12 : (t <<< 24) % 2 ^ 12 = 0 := shiftLeft_mod_aligned t 24 12 (by omega)
  have mD24 : (t <<< 24) % 2 ^ 24 = 0 := shiftLeft_mod_aligned t 24 24 (by omega)
  have mE12 : (g <<< 12) % 2 ^ 12 = 0 := shiftLeft_mod_aligned g 12 12 (by omega)
  have mF8 : (k <<< 8) % 2 ^ 8 = 0 := shiftLeft_mod_aligned k 8 8 (by omega)
  have lB : mc <<< 20 < 2 ^ 23 := shiftLeft_lt 20 hmc
  have lC : l <<< 16 < 2 ^ 18 := shiftLeft_lt 16 hl
  have lD : t <<< 24 < 2 ^ 31 := shiftLeft_lt 24 ht
  have lE : g <<< 12 < 2 ^ 16 := shiftLeft_lt 12 hg
  have lF : k <<< 8 < 2 ^ 10 := shiftLeft_lt 8 hk
  -- disjointness of each newly or-ed field with the accumulator
  have h6 : (1 <<< 31) &&& (mc <<< 20) = 0 :=
    and_eq_zero_of_aligned mA31 (lt_of_lt_of_le lB (by norm_num))
  have h5 : ((1 <<< 31) ||| (mc <<< 20)) &&& (l <<< 16) = 0 :=
    and_eq_zero_of_aligned (or_mod_two_pow_eq_zero mA20 (shiftLeft_mod_aligned mc 20 20 (by omega)))
      (lt_of_lt_of_le lC (by norm_num))
  have h4 : (((1 <<< 31) ||| (mc <<< 20)) ||| (l <<< 16)) &&& (t <<< 24) = 0 := by
    rw [Nat.and_distrib_right, Nat.and_distrib_right]
    rw [and_eq_zero_of_aligned mA31 lD]
    rw [Nat.and_comm (mc <<< 20),
      and_eq_zero_of_aligned mD24 (lt_of_lt_of_le lB (by norm_num))]
    rw [Nat.and_comm (l <<< 16),
      and_eq_zero_of_aligned mD24 (lt_of_lt_of_le lC (by norm_num))]
    rfl
  have h3 : ((((1 <<< 31) ||| (mc <<< 20)) ||| (l <<< 16)) ||| (t <<< 24)) &&&
      (g <<< 12) = 0 :=
    and_eq_zero_of_aligned
      (or_mod_two_pow_eq_zero (or_mod_two_pow_eq_zero
        (or_mod_two_pow_eq_zero
          (shiftLeft_mod_aligned 1 31 16 (by omega))
          (shiftLeft_mod_aligned mc 20 16 (by omega)))
        (shiftLeft_mod_aligned l 16 16 (by omega)))
        (shiftLeft_mod_aligned t 24 16 (by omega)))
      lE
  have h2 : (((((1 <<< 31) ||| (mc <<< 20)) ||| (l <<< 16)) ||| (t <<< 24)) |||
      (g <<< 12)) &&& (k <<< 8) = 0 :=
    and_eq_zero_of_aligned
      (or_mod_two_pow_eq_zero (or_mod_two_pow_eq_zero (or_mod_two_pow_eq_zero
        (or_mod_two_pow_eq_zero mA12 mB12) mC12) mD12) mE12)
      (lt_of_lt_of_le lF (by norm_num))
  have h1 : ((((((1 <<< 31) ||| (mc <<< 20)) ||| (l <<< 16)) ||| (t <<< 24)) |||
      (g <<< 12)) ||| (k <<< 8)) &&& a = 0 :=
    and_eq_zero_of_aligned
      (or_mod_two_pow_eq_zero (or_mod_two_pow_eq_zero (or_mod_two_pow_eq_zero
        (or_mod_two_pow_eq_zero (or_mod_two_pow_eq_zero
          (shiftLeft_mod_aligned 1 31 6 (by omega))
          (shiftLeft_mod_aligned mc 20 6 (by omega)))
          (shiftLeft_mod_aligned l 16 6 (by omega)))
          (shiftLeft_mod_aligned t 24 6 (by omega)))
          (shiftLeft_mod_aligned g 12 6 (by omega)))
        (shiftLeft_mod_aligned k 8 6 (by omega)))
      ha
  rw [or_eq_add_of_and_eq_zero _ _ h1, or_eq_add_of_and_eq_zero _ _ h2,
    or_eq_add_of_and_eq_zero _ _ h3, or_eq_add_of_and_eq_zero _ _ h4,
    or_eq_add_of_and_eq_zero _ _ h5, or_eq_add_of_and_eq_zero _ _ h6]
  simp only [Nat.shiftLeft_eq]
  ring

/-! ### Encoder normal forms (one per non-Explicit map type) -/

theorem expBarCfg_fixed_eq (t g a k l base : Nat)
    (ht : t < 128) (hg : g < 16) (ha : a < 64) (hk : k < 4) (hl : l < 4)
    (h48 : base < 2 ^ 48) (hlow : base % 2 ^ 16 = 0) :
    expansionBarCfgWords .Fixed t g a k base l =
      some (2 ^ 31 + t * 2 ^ 24 + l * 2 ^ 16 + g * 2 ^ 12 + k * 2 ^ 8 + a,
        base / 2 ^ 16) := by
  have h64 : base < 2 ^ 64 := lt_of_lt_of_le h48 (by norm_num)
  have hsz : ¬ (64 - leadingZeros64 base > 48) := by
    rw [sizeCheck_iff h64]
    omega
  have htr : ¬ ((bitLen64 (base &&& ((2 ^ 64 - base) % 2 ^ 64)) + (2 ^ 32 - 1))
      % 2 ^ 32 < 48 - mapWidth MapType.Fixed) := by
    rw [show 48 - mapWidth MapType.Fixed = 16 from rfl, truncCheck_iff (by omega) h48]
    rintro ⟨i, hic, hib⟩
    rw [mod_two_pow_eq_zero_iff.mp hlow i hic] at hib
    exact Bool.false_ne_true hib
  simp only [expansionBarCfgWords, if_neg (by decide : ¬ (MapType.Fixed = MapType.Explicit)),
    if_neg hsz, if_neg htr, Option.some.injEq, Prod.mk.injEq]
  constructor
  · rw [cfg0_chain_eq_add _ _ _ _ _ _
      (lt_of_le_of_lt Nat.and_le_right (by norm_num))
      (lt_of_le_of_lt Nat.and_le_right (by norm_num))
      (lt_of_le_of_lt Nat.and_le_right (by norm_num))
      (lt_of_le_of_lt Nat.and_le_right (by norm_num))
      (lt_of_le_of_lt Nat.and_le_right (by norm_num))
      (lt_of_le_of_lt Nat.and_le_right (by norm_num))]
    rw [show MapType.code MapType.Fixed &&& 0x7 = 0 by decide]
    simp only [and_mask127, and_mask15, and_mask63, and_mask3]
    rw [Nat.mod_eq_of_lt ht, Nat.mod_eq_of_lt hg, Nat.mod_eq_of_lt ha,
      Nat.mod_eq_of_lt hk, Nat.mod_eq_of_lt hl]
    ring
  · rw [show (48 - 32 : Nat) = 16 from rfl, Nat.shiftRight_eq_div_pow]
    have hb : base / 2 ^ 16 < 2 ^ 32 := by
      have h1 : (2 : Nat) ^ 32 * 2 ^ 16 = 2 ^ 48 := by norm_num
      rw [Nat.div_lt_iff_lt_mul (by norm_num)]
      omega
    exact Nat.mod_eq_of_lt hb

theorem expBarCfg_bulk_eq (t g a k l base : Nat)
    (ht : t < 128) (hg : g < 16) (hk : k < 4) (hl : l < 4)
    (h48 : base < 2 ^ 48) (hlow : base % 2 ^ 10 = 0) :
    expansionBarCfgWords .Bulk t g a k base l =
      some (2 ^ 31 + 2 ^ 20 + t * 2 ^ 24 + l * 2 ^ 16 + g * 2 ^ 12 +
          k * 2 ^ 8 + base / 2 ^ 42 % 64,
        base / 2 ^ 10 % 2 ^ 32) := by
  have h64 : base < 2 ^ 64 := lt_of_lt_of_le h48 (by norm_num)
  have hsz : ¬ (64 - leadingZeros64 base > 48) := by
    rw [sizeCheck_iff h64]
    omega
  have htr : ¬ ((bitLen64 (base &&& ((2 ^ 64 - base) % 2 ^ 64)) + (2 ^ 32 - 1))
      % 2 ^ 32 < 48 - mapWidth MapType.Bulk) := by
    rw [show 48 - mapWidth MapType.Bulk = 10 from rfl, truncCheck_iff (by omega) h48]
    rintro ⟨i, hic, hib⟩
    rw [mod_two_pow_eq_zero_iff.mp hlow i hic] at hib
    exact Bool.false_ne_true hib
  simp only [expansionBarCfgWords, if_neg (by decide : ¬ (MapType.Bulk = MapType.Explicit)),
    if_neg hsz, if_neg htr, Option.some.injEq, Prod.mk.injEq]
  constructor
  · rw [cfg0_chain_eq_add _ _ _ _ _ _
      (lt_of_le_of_lt Nat.and_le_right (by norm_num))
      (lt_of_le_of_lt Nat.and_le_right (by norm_num))
      (lt_of_le_of_lt Nat.and_le_right (by norm_num))
      (lt_of_le_of_lt Nat.and_le_right (by norm_num))
      (lt_of_le_of_lt Nat.and_le_right (by norm_num))
      (lt_of_le_of_lt Nat.and_le_right (by norm_num))]
    rw [show MapType.code MapType.Bulk &&& 0x7 = 1 by decide,
      show (48 - 6 : Nat) = 42 from rfl]
    simp only [and_mask127, and_mask15, and_mask63, and_mask3,
      Nat.shiftRight_eq_div_pow]
    rw [Nat.mod_eq_of_lt ht, Nat.mod_eq_of_lt hg, Nat.mod_eq_of_lt hk,
      Nat.mod_eq_of_lt hl]
    ring
  · rw [show (48 - 6 - 32 : Nat) = 10 from rfl, Nat.shiftRight_eq_div_pow]

theorem expBarCfg_target_eq (t g a k l base : Nat)
    (ht : t < 128) (hg : g < 16) (hl : l < 4)
    (h48 : base < 2 ^ 48) (hlow : base % 2 ^ 8 = 0) :
    expansionBarCfgWords .Target t g a k base l =
      some (2 ^ 31 + 2 * 2 ^ 20 + t * 2 ^ 24 + l * 2 ^ 16 + g * 2 ^ 12 +
          (base / 2 ^ 46 % 4) * 2 ^ 8 + base / 2 ^ 40 % 64,
        base / 2 ^ 8 % 2 ^ 32) := by
  have h64 : base < 2 ^ 64 := lt_of_lt_of_le h48 (by norm_num)
  have hsz : ¬ (64 - leadingZeros64 base > 48) := by
    rw [sizeCheck_iff h64]
    omega
  have htr : ¬ ((bitLen64 (base &&& ((2 ^ 64 - base) % 2 ^ 64)) + (2 ^ 32 - 1))
      % 2 ^ 32 < 48 - mapWidth MapType.Target) := by
    rw [show 48 - mapWidth MapType.Target = 8 from rfl, truncCheck_iff (by omega) h48]
    rintro ⟨i, hic, hib⟩
    rw [mod_two_pow_eq_zero_iff.mp hlow i hic] at hib
    exact Bool.false_ne_true hib
  simp only [expansionBarCfgWords, if_neg (by decide : ¬ (MapType.Target = MapType.Explicit)),
    if_neg hsz, if_neg htr, Option.some.injEq, Prod.mk.injEq]
  constructor
  · rw [cfg0_chain_eq_add _ _ _ _ _ _
      (lt_of_le_of_lt Nat.and_le_right (by norm_num))
      (lt_of_le_of_lt Nat.and_le_right (by norm_num))
      (lt_of_le_of_lt Nat.and_le_right (by norm_num))
      (lt_of_le_of_lt Nat.and_le_right (by norm_num))
      (lt_of_le_of_lt Nat.and_le_right (by norm_num))
      (lt_of_le_of_lt Nat.and_le_right (by norm_num))]
    rw [show MapType.code MapType.Target &&& 0x7 = 2 by decide,
      show (48 - 2 : Nat) = 46 from rfl, show (48 - 2 - 6 : Nat) = 40 from rfl]
    simp only [and_mask127, and_mask15, and_mask63, and_mask3,
      Nat.shiftRight_eq_div_pow]
    rw [Nat.mod_eq_of_lt ht, Nat.mod_eq_of_lt hg, Nat.mod_eq_of_lt hl]
    ring
  · rw [show (48 - 2 - 6 - 32 : Nat) = 8 from rfl, Nat.shiftRight_eq_div_pow]

theorem expBarCfg_general_eq (t g a k l base : Nat)
    (ht : t < 128) (hl : l < 4)
    (h48 : base < 2 ^ 48) (hlow : base % 2 ^ 4 = 0) :
    expansionBarCfgWords .General t g a k base l =
      some (2 ^ 31 + 3 * 2 ^ 20 + t * 2 ^ 24 + l * 2 ^ 16 +
          (base / 2 ^ 44 % 16) * 2 ^ 12 + (base / 2 ^ 42 % 4) * 2 ^ 8 +
          base / 2 ^ 36 % 64,
        base / 2 ^ 4 % 2 ^ 32) := by
  have h64 : base < 2 ^ 64 := lt_of_lt_of_le h48 (by norm_num)
  have hsz : ¬ (64 - leadingZeros64 base > 48) := by
    rw [sizeCheck_iff h64]
    omega
  have htr : ¬ ((bitLen64 (base &&& ((2 ^ 64 - base) % 2 ^ 64)) + (2 ^ 32 - 1))
      % 2 ^ 32 < 48 - mapWidth MapType.General) := by
    rw [show 48 - mapWidth MapType.General = 4 from rfl, truncCheck_iff (by omega) h48]
    rintro ⟨i, hic, hib⟩
    rw [mod_two_pow_eq_zero_iff.mp hlow i hic] at hib
    exact Bool.false_ne_true hib
  simp only [expansionBarCfgWords, if_neg (by decide : ¬ (MapType.General = MapType.Explicit)),
    if_neg hsz, if_neg htr, Option.some.injEq, Prod.mk.injEq]
  constructor
  · rw [cfg0_chain_eq_add _ _ _ _ _ _
      (lt_of_le_of_lt Nat.and_le_right (by norm_num))
      (lt_of_le_of_lt Nat.and_le_right (by norm_num))
      (lt_of_le_of_lt Nat.and_le_right (by norm_num))
      (lt_of_le_of_lt Nat.and_le_right (by norm_num))
      (lt_of_le_of_lt Nat.and_le_right (by norm_num))
      (lt_of_le_of_lt Nat.and_le_right (by norm_num))]
    rw [show MapType.code MapType.General &&& 0x7 = 3 by decide,
      show (48 - 4 : Nat) = 44 from rfl, show (48 - 4 - 2 : Nat) = 42 from rfl,
      show (48 - 4 - 2 - 6 : Nat) = 36 from rfl]
    simp only [and_mask127, and_mask15, and_mask63, and_mask3,
      Nat.shiftRight_eq_div_pow]
    rw [Nat.mod_eq_of_lt ht, Nat.mod_eq_of_lt hl]
    ring
  · rw [show (48 - 4 - 2 - 6 - 32 : Nat) = 4 from rfl, Nat.shiftRight_eq_div_pow]

/-- Decoder recovering the 48-bit base address from the two config
words, per map type (the inverse direction of the §4.2 encoding; for
`Explicit` nothing is encoded, so the decoder is trivial). -/
def baseDecode : MapType → Nat → Nat → Nat
  | .Fixed, _, w1 => w1 * 2 ^ 16
  | .Bulk, w0, w1 => (w0 % 64) * 2 ^ 42 + w1 * 2 ^ 10
  | .Target, w0, w1 =>
      (w0 / 2 ^ 8 % 4) * 2 ^ 46 + (w0 % 64) * 2 ^ 40 + w1 * 2 ^ 8
  | .General, w0, w1 =>
      (w0 / 2 ^ 12 % 16) * 2 ^ 44 + (w0 / 2 ^ 8 % 4) * 2 ^ 42 +
        (w0 % 64) * 2 ^ 36 + w1 * 2 ^ 4
  | .Explicit, _, _ => 0

/-! ### The explicit-BAR base-address check (`explicit_bar.rs`) -/

/-- The base-address check of `ExplicitBar::explicit_bar_cfg`
(`explicit_bar.rs`, lines 137-145): `true` means the function panics
with "The lower 16 bits of address ... would be truncated".  The Rust
expression is
`((base_addr & base_addr.wrapping_neg()).leading_zeros() as u64).saturating_sub(1)`
tested for membership in `0..16`; `saturating_sub` on `Nat` is plain
subtraction. -/
def explicitBarCfgRejects (baseAddr : Nat) : Bool :=
  decide (leadingZeros64 (baseAddr &&& ((2 ^ 64 - baseAddr) % 2 ^ 64)) - 1 < 16)

/-! ### Theorems for claim C1 -/

/-- C1: the claim's global-address law holds for `xpb_write` but fails for
`xpb_read`: at island `pcie0` (id 2), input address `0x00B00040`, with
`xpbm = true`, `xpb_read` issues CPP address `0x82B00040` — the island-id
bits are still ORed into bits 30:24 — while the claim requires exactly
`(address &&& 0x00FFFFFF) ||| 0x80000000 = 0x80B00040`.  The island
substitution to chip-exec does hold on both paths. -/
theorem C1_xpb_read_global_keeps_island_bits :
    xpbReadAddr CppIsland.Pcie0 0x00B00040 true = 0x82B00040 ∧
    xpbWriteAddr CppIsland.Pcie0 0x00B00040 true = 0x80B00040 ∧
    xpbReadAddr CppIsland.Pcie0 0x00B00040 true ≠
      ((0x00B00040 &&& 0x00FFFFFF) ||| 0x80000000) ∧
    xpbReadIsland CppIsland.Pcie0 true = CppIsland.ChipExec ∧
    xpbWriteIsland CppIsland.Pcie0 true = CppIsland.ChipExec := by
  refine ⟨by decide, by decide, by decide, rfl, rfl⟩

/-- C2 counterexample: the claim fails as stated.  For the Fixed map
type at base address `0x10000` the produced word1 is `1` — the slice
placed in word1 is bits 47:16 of the base address, not bits 31:0.
Moreover for the Explicit map type nothing is recoverable: two calls
differing in the island id produce identical words. -/
theorem C2_fixed_word1_counterexample :
    expansionBarCfgWords MapType.Fixed 0 0 0 0 0x10000 0 =
      some (0x80000000, 1) ∧
    (0x10000 : Nat) &&& 0xFFFFFFFF ≠ 1 ∧
    expansionBarCfgWords MapType.Explicit 3 0 0 0 0 0 =
      expansionBarCfgWords MapType.Explicit 5 0 0 0 0 0 := by
  decide

/-- C2 (amended): for the four non-Explicit map types the two produced
config words determine the accepted inputs: the island id sits in bits
30:24 of word0 (for real island ids, below 16, bits 27:24 suffice), the
length class in bits 17:16, and the base address is recovered by
`baseDecode`; target and token are additionally recoverable for Fixed
and Bulk, and action for Fixed, whose word1 carries bits 47:16 of the
base address. -/
theorem C2_config_words_recoverable (map : MapType) (t g a k l base w0 w1 : Nat)
    (hmap : map ≠ MapType.Explicit) (ht : t < 128) (hg : g < 16) (ha : a < 64)
    (hk : k < 4) (hl : l < 4) (h64 : base < 2 ^ 64)
    (hsome : expansionBarCfgWords map t g a k base l = some (w0, w1)) :
    (w0 / 2 ^ 24 % 128 = t ∧ w0 / 2 ^ 16 % 4 = l ∧
      (t < 16 → w0 / 2 ^ 24 % 16 = t)) ∧
    ((map = MapType.Fixed ∨ map = MapType.Bulk) →
      w0 / 2 ^ 12 % 16 = g ∧ w0 / 2 ^ 8 % 4 = k) ∧
    (map = MapType.Fixed → w0 % 64 = a ∧ w1 = base / 2 ^ 16) ∧
    baseDecode map w0 w1 = base := by
  have h48 : base < 2 ^ 48 := by
    by_contra hcon
    have hsz : 64 - leadingZeros64 base > 48 := (sizeCheck_iff h64).mpr (by omega)
    simp only [expansionBarCfgWords, if_neg hmap, if_pos hsz] at hsome
    exact Option.noConfusion hsome
  have hszn : ¬ (64 - leadingZeros64 base > 48) := by
    rw [sizeCheck_iff h64]
    omega
  have hlow : base % 2 ^ (48 - mapWidth map) = 0 := by
    by_contra hcon
    have hex : ∃ i, i < 48 - mapWidth map ∧ base.testBit i := by
      obtain ⟨i, hi⟩ := Nat.ne_zero_implies_bit_true hcon
      rw [Nat.testBit_mod_two_pow, Bool.and_eq_true] at hi
      exact ⟨i, of_decide_eq_true hi.1, hi.2⟩
    have hc : 48 - mapWidth map ≤ 16 := by cases map <;> simp [mapWidth]
    have htr := (truncCheck_iff hc h48).mpr hex
    simp only [expansionBarCfgWords, if_neg hmap, if_neg hszn, if_pos htr] at hsome
    exact Option.noConfusion hsome
  cases map with
  | Explicit => exact absurd rfl hmap
  | Fixed =>
    have hlow16 : base % 2 ^ 16 = 0 := hlow
    rw [expBarCfg_fixed_eq t g a k l base ht hg ha hk hl h48 hlow16] at hsome
    simp only [Option.some.injEq, Prod.mk.injEq] at hsome
    obtain ⟨hw0, hw1⟩ := hsome
    subst hw0
    subst hw1
    refine ⟨⟨by omega, by omega, fun _ => by omega⟩,
      fun _ => ⟨by omega, by omega⟩, fun _ => ⟨by omega, rfl⟩, ?_⟩
    simp only [baseDecode]
    omega
  | Bulk =>
    have hlow10 : base % 2 ^ 10 = 0 := hlow
    rw [expBarCfg_bulk_eq t g a k l base ht hg hk hl h48 hlow10] at hsome
    simp only [Option.some.injEq, Prod.mk.injEq] at hsome
    obtain ⟨hw0, hw1⟩ := hsome
    subst hw0
    subst hw1
    refine ⟨⟨by omega, by omega, fun _ => by omega⟩,
      fun _ => ⟨by omega, by omega⟩,
      fun h => MapType.noConfusion h, ?_⟩
    simp only [baseDecode]
    omega
  | Target =>
    have hlow8 : base % 2 ^ 8 = 0 := hlow
    rw [expBarCfg_target_eq t g a k l base ht hg hl h48 hlow8] at hsome
    simp only [Option.some.injEq, Prod.mk.injEq] at hsome
    obtain ⟨hw0, hw1⟩ := hsome
    clear hlow hszn h64 hmap
    have e1 : w0 / 2 ^ 24 % 128 = t := by clear h48 hlow8 hw1; omega
    have e2 : w0 / 2 ^ 16 % 4 = l := by clear h48 hlow8 hw1; omega
    have e3 : w0 / 2 ^ 24 % 16 = t % 16 := by clear h48 hlow8 hw1; omega
    have e4 : w0 / 2 ^ 8 % 4 = base / 2 ^ 46 % 4 := by clear h48 hlow8 hw1; omega
    have e5 : w0 % 64 = base / 2 ^ 40 % 64 := by clear h48 hlow8 hw1; omega
    refine ⟨⟨e1, e2, fun h16 => by clear h48 hlow8 hw0 hw1; omega⟩,
      fun h => by rcases h with h | h <;> exact MapType.noConfusion h,
      fun h => MapType.noConfusion h, ?_⟩
    simp only [baseDecode]
    rw [e4, e5, ← hw1]
    clear e1 e2 e3 e4 e5 hw0 hw1
    omega
  | General =>
    have hlow4 : base % 2 ^ 4 = 0 := hlow
    rw [expBarCfg_general_eq t g a k l base ht hl h48 hlow4] at hsome
    simp only [Option.some.injEq, Prod.mk.injEq] at hsome
    obtain ⟨hw0, hw1⟩ := hsome
    clear hlow hszn h64 hmap
    obtain ⟨X, hX, hXe⟩ : ∃ X, X < 16 ∧ base / 2 ^ 44 % 16 = X :=
      ⟨_, Nat.mod_lt _ (by norm_num), rfl⟩
    obtain ⟨Y, hY, hYe⟩ : ∃ Y, Y < 4 ∧ base / 2 ^ 42 % 4 = Y :=
      ⟨_, Nat.mod_lt _ (by norm_num), rfl⟩
    obtain ⟨Z, hZ, hZe⟩ : ∃ Z, Z < 64 ∧ base / 2 ^ 36 % 64 = Z :=
      ⟨_, Nat.mod_lt _ (by norm_num), rfl⟩
    rw [hXe, hYe, hZe] at hw0
    have e1 : w0 / 2 ^ 24 % 128 = t := by clear h48 hlow4 hw1 hXe hYe hZe; omega
    have e2 : w0 / 2 ^ 16 % 4 = l := by clear h48 hlow4 hw1 hXe hYe hZe; omega
    have e3 : w0 / 2 ^ 24 % 16 = t % 16 := by clear h48 hlow4 hw1 hXe hYe hZe; omega
    have e4 : w0 / 2 ^ 12 % 16 = X := by clear h48 hlow4 hw1 hXe hYe hZe; omega
    have e5 : w0 / 2 ^ 8 % 4 = Y := by clear h48 hlow4 hw1 hXe hYe hZe; omega
    have e6 : w0 % 64 = Z := by clear h48 hlow4 hw1 hXe hYe hZe; omega
    refine ⟨⟨e1, e2, fun h16 => by clear h48 hlow4 hw0 hw1; omega⟩,
      fun h => by rcases h with h | h <;> exact MapType.noConfusion h,
      fun h => MapType.noConfusion h, ?_⟩
    simp only [baseDecode]
    rw [e4, e5, e6, ← hw1, ← hXe, ← hYe, ← hZe]
    clear e1 e2 e3 e4 e5 e6 hw0 hw1 hXe hYe hZe hX hY hZ
    omega

/-- C2 witness: concrete instantiation of the amended recoverability
theorem at map type Fixed, island 1, target 2, action 3, token 1,
length 0, base address `0x30000`. -/
theorem C2_config_words_recoverable_witness :
    ((0x81002103 : Nat) / 2 ^ 24 % 128 = 1 ∧
      (0x81002103 : Nat) / 2 ^ 16 % 4 = 0 ∧
      ((1 : Nat) < 16 → (0x81002103 : Nat) / 2 ^ 24 % 16 = 1)) ∧
    ((MapType.Fixed = MapType.Fixed ∨ MapType.Fixed = MapType.Bulk) →
      (0x81002103 : Nat) / 2 ^ 12 % 16 = 2 ∧
      (0x81002103 : Nat) / 2 ^ 8 % 4 = 1) ∧
    (MapType.Fixed = MapType.Fixed →
      (0x81002103 : Nat) % 64 = 3 ∧ (3 : Nat) = 0x30000 / 2 ^ 16) ∧
    baseDecode MapType.Fixed 0x81002103 3 = 0x30000 :=
  C2_config_words_recoverable MapType.Fixed 1 2 3 1 0 0x30000 0x81002103 3
    (by decide) (by decide) (by decide) (by decide) (by decide) (by decide)
    (by norm_num) (by decide)

/-- C3: for every non-Explicit map type and every base address of at
most 48 bits, `expansion_bar_cfg` rejects (panics) exactly when the base
address has a set bit below position `48 - width(map)` — so `base = 0`
is accepted — and every base address of 48 bits or more is rejected. -/
theorem C3_address_fit_check (map : MapType) (t g a k l base : Nat)
    (hmap : map ≠ .Explicit) (h64 : base < 2 ^ 64) :
    (base < 2 ^ 48 →
      (expansionBarCfgWords map t g a k base l = none ↔
        ∃ i, i < 48 - mapWidth map ∧ base.testBit i)) ∧
    (2 ^ 48 ≤ base → expansionBarCfgWords map t g a k base l = none) := by
  constructor
  · intro h48
    have hsz : ¬ (64 - leadingZeros64 base > 48) := by
      rw [sizeCheck_iff h64]
      omega
    have hc : 48 - mapWidth map ≤ 16 := by
      cases map <;> simp [mapWidth]
    have hiff := truncCheck_iff hc h48
    by_cases hex : ∃ i, i < 48 - mapWidth map ∧ base.testBit i
    · simp only [expansionBarCfgWords, if_neg hmap, if_neg hsz,
        if_pos (hiff.mpr hex)]
      simpa using hex
    · simp only [expansionBarCfgWords, if_neg hmap, if_neg hsz,
        if_neg (fun hcond => hex (hiff.mp hcond))]
      simpa using hex
  · intro h48
    have hsz : 64 - leadingZeros64 base > 48 := (sizeCheck_iff h64).mpr h48
    simp only [expansionBarCfgWords, if_neg hmap, if_pos hsz]

/-- C3 witness: a concrete instantiation — with map type `Fixed` and
`base = 0` (no set bits at all) the request is accepted. -/
theorem C3_address_fit_check_witness :
    (expansionBarCfgWords MapType.Fixed 1 2 3 1 0 0 = none ↔
      ∃ i, i < 48 - mapWidth MapType.Fixed ∧ Nat.testBit 0 i) ∧
    expansionBarCfgWords MapType.Fixed 1 2 3 1 0 0 ≠ none :=
  ⟨(C3_address_fit_check MapType.Fixed 1 2 3 1 0 0 (by decide)
      (by norm_num)).1 (by norm_num),
   by decide⟩

/-- C4: the explicit-BAR truncation check does *not* implement "reject
iff the low 16 bits are nonzero": `0x8000` (low 16 bits nonzero) is
accepted, while `2^47` (a multiple of `0x10000`) is rejected; `0` is
accepted.  The check compares `leading_zeros` (not trailing zeros) of
the lowest set bit against 16, contradicting the function's own panic
message. -/
theorem C4_explicit_bar_check_eval :
    explicitBarCfgRejects 0x8000 = false ∧ (0x8000 : Nat) % 0x10000 ≠ 0 ∧
    explicitBarCfgRejects 0x800000000000 = true ∧
    (0x800000000000 : Nat) % 0x10000 = 0 ∧
    explicitBarCfgRejects 0 = false := by decide

/-! ### Expansion-BAR state and the caching step (claims C5, C6) -/

/-- The slice of `ExpansionBar` state relevant to the translator: the
current map type (`exp_bar_map`) and the cached config words
(`exp_bar_cached_cfg`). -/
structure ExpBarState where
  map : MapType
  cached0 : Nat
  cached1 : Nat
  deriving DecidableEq, Repr

/-- One call to `ExpansionBar::expansion_bar_cfg` as a state step:
outer `none` models a panic; otherwise the updated state is returned
together with `some (cfg0, cfg1)` when the word pair was written to the
BAR-config CSRs and `none` when the config-space write was skipped.
Mirrors `expansion_bar.rs` lines 212-303: both the Explicit early
return and the general path guard the CSR write with the same
cached-pair test and update the cache exactly when writing. -/
def expansionBarCfgStep (s : ExpBarState)
    (tgtIslandId target action token baseAddr cppLen : Nat) :
    Option (ExpBarState × Option (Nat × Nat)) :=
  match expansionBarCfgWords s.map tgtIslandId target action token baseAddr cppLen with
  | none => none
  | some (cfg0, cfg1) =>
      if cfg0 ≠ s.cached0 ∨ cfg1 ≠ s.cached1 then
        some ({ s with cached0 := cfg0, cached1 := cfg1 }, some (cfg0, cfg1))
      else
        some (s, none)

/-- C6: the caching invariant of `expansion_bar_cfg`, for every map type
including Explicit.  On every non-panicking call: if a config-space
write happened, the cache afterwards equals exactly the written pair; if
no write happened, the state is unchanged and the computed pair equals
the cached pair; and conversely whenever the computed pair equals the
cached pair the write is skipped. -/
theorem C6_cached_cfg_invariant (s : ExpBarState) (t g a k b l : Nat)
    (s' : ExpBarState) (w : Option (Nat × Nat))
    (hstep : expansionBarCfgStep s t g a k b l = some (s', w)) :
    (∀ p, w = some p → s'.cached0 = p.1 ∧ s'.cached1 = p.2 ∧ s'.map = s.map) ∧
    (w = none → s' = s ∧
      expansionBarCfgWords s.map t g a k b l = some (s.cached0, s.cached1)) ∧
    (expansionBarCfgWords s.map t g a k b l = some (s.cached0, s.cached1) →
      w = none) := by
  cases hw : expansionBarCfgWords s.map t g a k b l with
  | none =>
    simp only [expansionBarCfgStep, hw] at hstep
    exact Option.noConfusion hstep
  | some p =>
    obtain ⟨c0, c1⟩ := p
    simp only [expansionBarCfgStep, hw] at hstep
    by_cases hcc : c0 ≠ s.cached0 ∨ c1 ≠ s.cached1
    · rw [if_pos hcc] at hstep
      obtain ⟨hs', hw'⟩ := Prod.mk.injEq .. ▸ Option.some.injEq .. ▸ hstep
      refine ⟨?_, ?_, ?_⟩
      · intro q hq
        rw [← hw', ← hs'] at *
        obtain rfl : q = (c0, c1) := by
          rw [← hw'] at hq
          exact (Option.some.injEq .. ▸ hq).symm
        exact ⟨rfl, rfl, rfl⟩
      · intro hnone
        rw [← hw'] at hnone
        exact Option.noConfusion hnone
      · intro hcache
        obtain ⟨h0, h1⟩ := Prod.mk.injEq .. ▸ Option.some.injEq .. ▸ hcache
        exact absurd (by omega : ¬ (c0 ≠ s.cached0 ∨ c1 ≠ s.cached1)) (by tauto)
    · rw [if_neg hcc] at hstep
      obtain ⟨hs', hw'⟩ := Prod.mk.injEq .. ▸ Option.some.injEq .. ▸ hstep
      push_neg at hcc
      refine ⟨?_, ?_, fun _ => hw'.symm⟩
      · intro q hq
        rw [← hw'] at hq
        exact Option.noConfusion hq
      · intro _
        exact ⟨hs'.symm, by rw [hcc.1, hcc.2]⟩

/-- C6 witness: with an Explicit-mapped aperture whose cache already
holds the Explicit config pair `(0x80400000, 0)`, the call skips the
config-space write and leaves the state unchanged. -/
theorem C6_cached_cfg_invariant_witness :
    (∀ p, (none : Option (Nat × Nat)) = some p →
      (⟨MapType.Explicit, 0x80400000, 0⟩ : ExpBarState).cached0 = p.1 ∧
      (⟨MapType.Explicit, 0x80400000, 0⟩ : ExpBarState).cached1 = p.2 ∧
      (⟨MapType.Explicit, 0x80400000, 0⟩ : ExpBarState).map =
        (⟨MapType.Explicit, 0x80400000, 0⟩ : ExpBarState).map) ∧
    ((none : Option (Nat × Nat)) = none →
      (⟨MapType.Explicit, 0x80400000, 0⟩ : ExpBarState) =
        (⟨MapType.Explicit, 0x80400000, 0⟩ : ExpBarState) ∧
      expansionBarCfgWords MapType.Explicit 0 0 0 0 0 0 =
        some (0x80400000, 0)) ∧
    (expansionBarCfgWords MapType.Explicit 0 0 0 0 0 0 =
        some (0x80400000, 0) →
      (none : Option (Nat × Nat)) = none) :=
  C6_cached_cfg_invariant ⟨MapType.Explicit, 0x80400000, 0⟩ 0 0 0 0 0 0
    ⟨MapType.Explicit, 0x80400000, 0⟩ none (by decide)

/-! ### Memory access (`mem_access.rs`, claim C5) -/

/-- `MuMemoryEngine` from `mem_access.rs`. -/
inductive MuMemoryEngine where
  | Atomic32
  | Bulk32
  | Bulk64
  deriving DecidableEq, Repr

/-- `MuMemoryEngine::read_command`: the CPP `(action, token)` pair. -/
def MuMemoryEngine.readCommand : MuMemoryEngine → Nat × Nat
  | .Atomic32 => (34, 0)
  | .Bulk32 => (28, 0)
  | .Bulk64 => (0, 0)

/-- `MuMemoryEngine::write_command`: the CPP `(action, token)` pair. -/
def MuMemoryEngine.writeCommand : MuMemoryEngine → Nat × Nat
  | .Atomic32 => (4, 0)
  | .Bulk32 => (31, 0)
  | .Bulk64 => (1, 0)

/-- `MuMemoryEngine::cpp_length`. -/
def MuMemoryEngine.cppLength : MuMemoryEngine → CppLength
  | .Atomic32 => .Len32
  | .Bulk32 => .Len32
  | .Bulk64 => .Len64

/-- `MemoryType` from `mem_access.rs`. -/
inductive MemoryType where
  | Emem
  | Ctm
  | Cls
  deriving DecidableEq, Repr

/-- The map-type adjustment at the top of `mem_read` (`mem_access.rs`,
lines 91-94): `if exp_bar.exp_bar_map != MapType::Fixed { exp_bar.exp_bar_map = MapType::Fixed }`. -/
def memReadEnsureMap (s : ExpBarState) : ExpBarState :=
  if s.map ≠ MapType.Fixed then { s with map := MapType.Fixed } else s

/-- The identical adjustment at the top of `mem_write` (lines 132-135). -/
def memWriteEnsureMap (s : ExpBarState) : ExpBarState :=
  if s.map ≠ MapType.Fixed then { s with map := MapType.Fixed } else s

/-- The CPP parameters `(target, action, token, length)` that `mem_read`
passes to the CPP bus, per memory class and engine. -/
def memReadParams (memType : MemoryType) (engine : MuMemoryEngine) :
    CppTarget × Nat × Nat × CppLength :=
  match memType with
  | .Emem | .Ctm =>
      (CppTarget.Mem, engine.readCommand.1, engine.readCommand.2, engine.cppLength)
  | .Cls => (CppTarget.Cls, 0, 0, CppLength.Len32)

/-- The CPP parameters that `mem_write` passes to the CPP bus. -/
def memWriteParams (memType : MemoryType) (engine : MuMemoryEngine) :
    CppTarget × Nat × Nat × CppLength :=
  match memType with
  | .Emem | .Ctm =>
      (CppTarget.Mem, engine.writeCommand.1, engine.writeCommand.2, engine.cppLength)
  | .Cls => (CppTarget.Cls, 1, 0, CppLength.Len32)

/-- C5 counterexample: the claim says `mem_read`/`mem_write` ensure the
aperture is in *Bulk* map type, but starting from a Bulk-mapped
aperture both operations switch it away, to Fixed. -/
theorem C5_mem_access_not_bulk :
    (memReadEnsureMap ⟨MapType.Bulk, 0, 0⟩).map ≠ MapType.Bulk ∧
    (memWriteEnsureMap ⟨MapType.Bulk, 0, 0⟩).map ≠ MapType.Bulk := by
  decide

/-- C5 (amended): for every aperture state, `mem_read` and `mem_write`
ensure the aperture is in *Fixed* map type before configuring and
issuing the CPP transaction, touching only the map-type field (in
particular an already-Fixed aperture is left unchanged). -/
theorem C5_mem_access_ensures_fixed (s : ExpBarState) :
    (memReadEnsureMap s).map = MapType.Fixed ∧
    (memWriteEnsureMap s).map = MapType.Fixed ∧
    memReadEnsureMap s = { s with map := MapType.Fixed } ∧
    memWriteEnsureMap s = { s with map := MapType.Fixed } := by
  obtain ⟨m, c0, c1⟩ := s
  by_cases h : m = MapType.Fixed <;>
    simp [memReadEnsureMap, memWriteEnsureMap, h]

/-! ### Virtual terminal (`virtual_terminal.rs`, claims C8, C10) -/

/-- `VtmMetadata` core field, bits 2:0 (`bitfield!` in
`virtual_terminal.rs`). -/
def vtmCore (m : Nat) : Nat := m &&& 0x7

/-- `VtmMetadata` group field, bits 7:3. -/
def vtmGroup (m : Nat) : Nat := (m >>> 3) &&& 0x1F

/-- `VtmMetadata` island field, bits 15:8. -/
def vtmIsland (m : Nat) : Nat := (m >>> 8) &&& 0xFF

/-- The `Rfpc` identity record (fields of `Rfpc` in `rfpc.rs`). -/
structure Rfpc where
  island : CppIsland
  cluster : Nat
  group : Nat
  core : Nat
  deriving DecidableEq, Repr

/-- `VirtualTerminal::holder` as a function of the polled `lock` and
`metadata` words (`virtual_terminal.rs`, lines 90-125).
`Except.error ()` models the panic raised inside `CppIsland::from_id`
when the island field does not decode; `.ok none` is Rust's `None`.
The source computes `group = meta.group() % 4` and then
`cluster = group / 4` from the already-reduced value. -/
def holder (lockWord metaWord : Nat) : Except Unit (Option Rfpc) :=
  if ¬ (lockWord = 0) then
    .ok none
  else
    let island := vtmIsland metaWord
    if island = 0 ∨ island &&& 0x300 ≠ 0 then
      .ok none
    else
      let group := vtmGroup metaWord % 4
      let cluster := group / 4
      match CppIsland.fromId island with
      | none => .error ()
      | some isl => .ok (some ⟨isl, cluster, group, vtmCore metaWord⟩)

theorem fromId_isSome_of_lt {i : Nat} (h : i < 16) :
    (CppIsland.fromId i).isSome := by
  interval_cases i <;> rfl

theorem fromId_eq_none_of_ge {i : Nat} (h : 16 ≤ i) :
    CppIsland.fromId i = none := by
  obtain ⟨k, rfl⟩ : ∃ k, i = k + 16 := ⟨i - 16, by omega⟩
  rfl

theorem vtmIsland_lt (m : Nat) : vtmIsland m < 256 :=
  lt_of_le_of_lt Nat.and_le_right (by norm_num)

theorem vtmIsland_reserved_zero (m : Nat) : vtmIsland m &&& 0x300 = 0 := by
  rw [Nat.and_comm]
  exact and_eq_zero_of_aligned (s := 8) (by norm_num) (vtmIsland_lt m)

/-- C8 counterexample: with the terminal locked (`lock = 0`) and
metadata `0x12B` (island field 1, group field 5, core field 3),
`holder` returns cluster `0` and group `1`, whereas the claim requires
cluster = group field / 4 = 1. -/
theorem C8_holder_cluster_counterexample :
    holder 0 0x12B = .ok (some ⟨CppIsland.ChipExec, 0, 1, 3⟩) ∧
    vtmGroup 0x12B = 5 ∧ (5 : Nat) / 4 = 1 ∧ (1 : Nat) ≠ 0 := by
  exact ⟨rfl, by decide⟩

/-- C8 (amended): `holder` returns none when the terminal is not
locked; it returns none whenever the metadata island field is 0 or in
the reserved range — the latter vacuously, since the 8-bit island field
never meets `island &&& 0x300 ≠ 0`; otherwise, whenever the island
field decodes, it returns island = decode(field),
group = group field % 4, cluster = (group field % 4) / 4 (which is
always 0, not group field / 4), and core = core field; and every island
field in 1..15 decodes. -/
theorem C8_holder_behaviour (lockWord metaWord : Nat) :
    (vtmIsland metaWord &&& 0x300 = 0) ∧
    (lockWord ≠ 0 → holder lockWord metaWord = .ok none) ∧
    (vtmIsland metaWord = 0 ∨ vtmIsland metaWord &&& 0x300 ≠ 0 →
      holder lockWord metaWord = .ok none) ∧
    (lockWord = 0 → vtmIsland metaWord ≠ 0 →
      ∀ isl, CppIsland.fromId (vtmIsland metaWord) = some isl →
        holder lockWord metaWord =
          .ok (some ⟨isl, vtmGroup metaWord % 4 / 4, vtmGroup metaWord % 4,
            vtmCore metaWord⟩) ∧
        vtmGroup metaWord % 4 / 4 = 0) ∧
    (vtmIsland metaWord ≠ 0 → vtmIsland metaWord < 16 →
      (CppIsland.fromId (vtmIsland metaWord)).isSome) := by
  have hres := vtmIsland_reserved_zero metaWord
  have p2 : lockWord ≠ 0 → holder lockWord metaWord = .ok none := by
    intro h
    simp [holder, h]
  refine ⟨hres, p2, ?_, ?_, fun _ h => fromId_isSome_of_lt h⟩
  · intro hcase
    rcases hcase with h0 | hr
    · by_cases hlock : lockWord = 0
      · subst hlock
        simp [holder, h0]
      · exact p2 hlock
    · exact absurd hres hr
  · intro hlock h1 isl hisl
    subst hlock
    have hcond : ¬ (vtmIsland metaWord = 0 ∨ vtmIsland metaWord &&& 0x300 ≠ 0) :=
      fun h => h.elim h1 (fun hr => hr hres)
    constructor
    · simp [holder, hcond, hisl]
    · omega

/-- C8 witness: the amended behaviour at lock word 0 and metadata
`0x12B`. -/
theorem C8_holder_behaviour_witness :
    holder 0 0x12B =
      .ok (some ⟨CppIsland.ChipExec, 0, 1, 3⟩) ∧ (0 : Nat) = 0 :=
  ⟨(((C8_holder_behaviour 0 0x12B).2.2.2.1 rfl (by decide)
      CppIsland.ChipExec (by decide)).1 : _),
   (((C8_holder_behaviour 0 0x12B).2.2.2.1 rfl (by decide)
      CppIsland.ChipExec (by decide)).2 : _)⟩

/-- C10: the reserved-range test can never fire on the 8-bit island
field, so for every locked state whose metadata island field is 16 or
more, `holder` panics inside `CppIsland::from_id`; consequently
`holder` returns a value only when the island field is at most 15. -/
theorem C10_holder_panics_on_wide_island (lockWord metaWord : Nat) :
    (vtmIsland metaWord &&& 0x300 = 0) ∧
    (lockWord = 0 → 16 ≤ vtmIsland metaWord →
      holder lockWord metaWord = Except.error ()) ∧
    (∀ r, holder lockWord metaWord = .ok (some r) →
      vtmIsland metaWord ≤ 15) := by
  have hres := vtmIsland_reserved_zero metaWord
  have p2 : lockWord = 0 → 16 ≤ vtmIsland metaWord →
      holder lockWord metaWord = Except.error () := by
    intro hlock h16
    subst hlock
    have hcond : ¬ (vtmIsland metaWord = 0 ∨ vtmIsland metaWord &&& 0x300 ≠ 0) :=
      fun h => h.elim (fun h0 => by omega) (fun hr => hr hres)
    simp [holder, hcond, fromId_eq_none_of_ge h16]
  refine ⟨hres, p2, ?_⟩
  intro r hr
  by_contra hcon
  have h16 : 16 ≤ vtmIsland metaWord := by omega
  by_cases hlock : lockWord = 0
  · rw [p2 hlock h16] at hr
    exact Except.noConfusion hr
  · simp [holder, hlock] at hr

/-- C10 witness: locked terminal, metadata `0x1000` (island field 16):
`holder` panics in the decoder. -/
theorem C10_holder_panics_on_wide_island_witness :
    holder 0 0x1000 = Except.error () :=
  (C10_holder_panics_on_wide_island 0 0x1000).2.1 rfl (by decide)

/-! ### Performance analyzer (`performance_analyzer.rs`, claim C7) -/

/-- `bitfield!` setter: replace bits `[lo, lo+width)` of `w` by the low
`width` bits of `v` (the semantics of the Rust `bitfield` crate's
generated setters). -/
def setField (w lo width v : Nat) : Nat :=
  w % 2 ^ lo + 2 ^ lo * (v % 2 ^ width + 2 ^ width * (w / 2 ^ (lo + width)))

/-- PA XPB register offsets (`performance_analyzer.rs`, lines 11-37). -/
def PA_CONFIG : Nat := 0x0000

/-- Offset of the (single) mask/compare register. -/
def PA_MASK_COMPARE : Nat := 0x0040

/-- The eight mask-compare-detect register offsets. -/
def PA_MASK_COMPARE_DETECT : List Nat :=
  [0x60, 0x64, 0x68, 0x6C, 0x70, 0x74, 0x78, 0x7C]

/-- The eight state-transition register-offset pairs. -/
def PA_TRIGGER_TRANSITION_CONFIG : List (Nat × Nat) :=
  [(0x80, 0x84), (0x88, 0x8C), (0x90, 0x94), (0x98, 0x9C),
   (0xA0, 0xA4), (0xA8, 0xAC), (0xB0, 0xB4), (0xB8, 0xBC)]

/-- The eight TCAM capture register offsets. -/
def PA_CAPTURE_TCAM : List Nat :=
  [0xC0, 0xC4, 0xC8, 0xCC, 0xD0, 0xD4, 0xD8, 0xDC]

/-- The state-transition mirror built by `PerformanceAnalyzer::new`
(lines 365-372): the loop `for _ in 0..7` pushes zeroed pairs. -/
def paNewStateTransitions : List (Nat × Nat) := List.replicate 7 (0, 0)

/-- Result of `PerformanceAnalyzer::set_state_transition`. -/
inductive SetTransitionResult where
  | panicArg
  | panicIndex
  | ok (st : List (Nat × Nat))
  deriving DecidableEq, Repr

/-- `set_state_transition` (lines 719-767): the explicit bit-width
panics in source order (`panicArg`), then the indexed update of the
mirror; indexing `state_transitions[transition_num]` out of bounds is
the Rust index panic (`panicIndex`).  Field packing follows the
`PATriggerTransitionConfig0/1` bitfield layouts. -/
def setStateTransition (st : List (Nat × Nat)) (transitionNum stateMask
    mcdMask mcdCompare countersZeroMask countersNonzeroMask : Nat)
    (extMask invert : Bool)
    (counterDecMask counterIncMask counterRestartMask destinationMask : Nat) :
    SetTransitionResult :=
  if transitionNum ≥ 8 then .panicArg
  else if countersZeroMask ≥ 4 then .panicArg
  else if counterDecMask ≥ 4 then .panicArg
  else if counterIncMask ≥ 4 then .panicArg
  else if counterRestartMask ≥ 4 then .panicArg
  else if h : transitionNum < st.length then
    let p := st.get ⟨transitionNum, h⟩
    let c0 := setField p.1 0 8 stateMask
    let c0 := setField c0 8 8 mcdMask
    let c0 := setField c0 16 8 mcdCompare
    let c0 := setField c0 24 2 countersZeroMask
    let c0 := setField c0 26 2 countersNonzeroMask
    let c0 := setField c0 28 1 (if extMask then 1 else 0)
    let c0 := setField c0 29 1 (if invert then 1 else 0)
    let c1 := setField p.2 0 8 destinationMask
    let c1 := setField c1 16 2 counterRestartMask
    let c1 := setField c1 18 2 counterIncMask
    let c1 := setField c1 20 2 counterDecMask
    .ok (st.set transitionNum (c0, c1))
  else .panicIndex

/-- `apply_configuration` (lines 803-870) as the ordered list of
`(xpb address, value)` writes it performs: the global config word, the
16 mask/compare values (all to the single `PA_MASK_COMPARE` offset),
the mask-compare-detect values, the state-transition pairs, and the
TCAM values at their indexed offsets.  `zipWith` against the offset
tables reproduces the indexed loops (the mirrors built by `new` are
never longer than the offset tables). -/
def applyConfigurationWrites (paBase cfgWord : Nat)
    (mc mcd tcam : List Nat) (st : List (Nat × Nat)) : List (Nat × Nat) :=
  [(paBase + PA_CONFIG, cfgWord)]
    ++ mc.map (fun v => (paBase + PA_MASK_COMPARE, v))
    ++ List.zipWith (fun off v => (paBase + off, v)) PA_MASK_COMPARE_DETECT mcd
    ++ (List.zipWith (fun offs p => [(paBase + offs.1, p.1), (paBase + offs.2, p.2)])
        PA_TRIGGER_TRANSITION_CONFIG st).flatten
    ++ List.zipWith (fun off v => (paBase + off, v)) PA_CAPTURE_TCAM tcam

/-- C7: the local mirror holds only 7 state-transition pairs, not 8:
`set_state_transition` passes its own 3-bit range check for transition
number 7 but then panics indexing the 7-element mirror, and the apply
step on the fresh mirror performs 47 writes — 14 transition words (7
pairs), not 16 — while the mask/compare loop issues all 16 writes to
the single offset `0x40`. -/
theorem C7_pa_mirror_off_by_one :
    paNewStateTransitions.length = 7 ∧
    ¬ ((7 : Nat) ≥ 8) ∧
    setStateTransition paNewStateTransitions 7 0 0 0 0 0 false false 0 0 0 0 =
      SetTransitionResult.panicIndex ∧
    setStateTransition paNewStateTransitions 6 0 0 0 0 0 false false 0 0 0 0 ≠
      SetTransitionResult.panicIndex ∧
    (applyConfigurationWrites 0xF0000 0 (List.replicate 16 0)
      (List.replicate 8 0) (List.replicate 8 0) paNewStateTransitions).length = 47 ∧
    ((applyConfigurationWrites 0xF0000 0 (List.replicate 16 0)
      (List.replicate 8 0) (List.replicate 8 0) paNewStateTransitions).filter
        (fun p => p.1 = 0xF0000 + 0x40)).length = 16 := by
  decide

/-! ### RSP server stub (`gdb_server_stub.rs`, claim C9) -/

/-- An entry of the RSP dispatch table: a static ASCII reply, or a
handler function (identified here by its Rust name; the handlers
themselves perform hardware I/O and are opaque to this model).
(`FuncType` in `gdb_server_stub.rs`.) -/
inductive RspHandler where
  | ascii (s : String)
  | noArg (name : String)
  | withArg (name : String)
  deriving DecidableEq, Repr

/-- One hexadecimal digit, lowercase. -/
def hexDigitChar (n : Nat) : Char :=
  if n < 10 then Char.ofNat (48 + n) else Char.ofNat (87 + n)

/-- `format!("{:02x}", n)` for a byte value `n < 256`. -/
def hexByte (n : Nat) : String :=
  String.mk [hexDigitChar (n / 16 % 16), hexDigitChar (n % 16)]

/-- The command-response table built by `RspServer::new`
(`gdb_server_stub.rs`, lines 51-105), in insertion order.  `none`
entries are commands mapped to no reply. -/
def cmdRespMap : List (String × Option RspHandler) :=
  [("!", some (.noArg "cmd_not_supported")),
   ("?", some (.ascii ("S" ++ hexByte 18))),
   ("c", none),
   ("D", none),
   ("QStartNoAckMode", some (.noArg "toggle_ack")),
   ("qC", some (.ascii "-1")),
   ("qOffsets", some (.noArg "load_offsets")),
   ("qSupported", some (.withArg "supported_features")),
   ("qAttached", some (.ascii "1")),
   ("H", some (.ascii "l")),
   ("g", some (.noArg "read_gprs")),
   ("p", some (.ascii "0000000000000000")),
   ("P", some (.withArg "write_csr")),
   ("m", none),
   ("\x03", none),
   ("k", none),
   ("C", none),
   ("vMustReplyEmpty", some (.noArg "cmd_not_supported")),
   ("X", some (.withArg "load_segment"))]

/-- Dispatch outcome of `handle_packet`. -/
inductive RspAnswer where
  | reply (s : String)
  | call (name : String)
  | silent
  | notSupported
  deriving DecidableEq, Repr

/-- Interpretation of one found table entry. -/
def dispatchEntry : Option RspHandler → RspAnswer
  | some (.ascii s) => .reply s
  | some (.noArg n) => .call n
  | some (.withArg n) => .call n
  | none => .silent

/-- `RspServer::handle_packet` (lines 463-498): the command is the
packet up to the first ':'; the full command is looked up first, then
its first character; otherwise `cmd_not_supported`.  (The panic on an
empty command string is not modelled; the claim concerns `?`.) -/
def handlePacket (packet : String) : RspAnswer :=
  let cmd : String := ⟨packet.data.takeWhile (fun c => c ≠ ':')⟩
  match cmdRespMap.lookup cmd with
  | some entry => dispatchEntry entry
  | none =>
    match cmdRespMap.lookup ⟨cmd.data.take 1⟩ with
    | some entry => dispatchEntry entry
    | none => .notSupported

/-- C9 counterexample: the `?` packet is answered with the payload
`"S12"` — `format!("S{:02x}", 18)` renders 18 in hexadecimal — and not
with `"S18"` as the claim states. -/
theorem C9_status_reply_counterexample :
    handlePacket "?" = RspAnswer.reply "S12" ∧ ("S12" : String) ≠ "S18" := by
  exact ⟨by decide, by decide⟩

/-- C9 (amended): every received `?` packet is answered with the
payload string `"S12"`, the two-digit lowercase-hex rendering of signal
number 18. -/
theorem C9_status_reply :
    handlePacket "?" = RspAnswer.reply ("S" ++ hexByte 18) ∧
    "S" ++ hexByte 18 = "S12" := by
  exact ⟨by decide, by decide⟩

end NfpTools
